import Mathlib

/-!
Verification development for the GitHub-Issues-to-Hugo publisher
(`issue_to_hugo.py`).  The Python functions of the markdown content
transformation pipeline are shallowly embedded as executable Lean functions
over `List Char` (Python strings are sequences of code points, so `List Char`
with explicit offsets mirrors them).  Regex scans are embedded as explicit
left-to-right scanners with a fuel argument (fuel is always instantiated with
the length of the scanned list, which is an upper bound on the number of scan
steps, so the embedded functions are total and kernel-reducible).
-/

set_option autoImplicit false

namespace IssueToHugo

/-- The backtick character (written via its code point to keep source plain). -/
def btk : Char := Char.ofNat 96

/-- The single-quote character. -/
def qt : Char := Char.ofNat 39

/-- Newline character. -/
def nl : Char := Char.ofNat 10

/-- Convenience: the character list of a string literal. -/
def ofStr (s : String) : List Char := s.toList

/-- Python `str.split("\n")`: splitting on newlines; the empty string yields
one empty line, and the result is never the empty list. -/
def splitOnNl : List Char → List (List Char)
  | [] => [[]]
  | c :: rest =>
    if c = nl then [] :: splitOnNl rest
    else
      match splitOnNl rest with
      | [] => [[c]]
      | l :: ls => (c :: l) :: ls

/-- Python `str.strip()` with the ASCII whitespace set (the bodies handled by
the tool are scanned per code point; `Char.isWhitespace` covers space, tab,
CR and LF, which is the whitespace that occurs in issue bodies). -/
def pyStrip (l : List Char) : List Char :=
  ((l.dropWhile Char.isWhitespace).reverse.dropWhile Char.isWhitespace).reverse

/-- Python `str.rstrip()`. -/
def pyRstrip (l : List Char) : List Char :=
  (l.reverse.dropWhile Char.isWhitespace).reverse

/-- The triple-backtick fence marker. -/
def fenceMarker : List Char := [btk, btk, btk]

/-- `line.strip().startswith("```")` from `is_within_code_block`
(src/issue_to_hugo.py line 59). -/
def fenceLine (l : List Char) : Bool :=
  decide ((pyStrip l).take 3 = fenceMarker)

/-- Spans of the regex `r"`[^`]+`"` on a single line: a backtick, one or more
non-backticks, a backtick; non-overlapping, left to right, as produced by
`re.finditer` (src/issue_to_hugo.py line 63).  Spans are `(start, end)` with
`end` exclusive, relative to the given running index.  The first argument is
fuel; each step consumes at least one character, so fuel `l.length` (used by
the wrapper `inlineSpans`) makes the scan exact. -/
def inlineSpansF : Nat → List Char → Nat → List (Nat × Nat)
  | 0, _, _ => []
  | _ + 1, [], _ => []
  | fuel + 1, c :: rest, i =>
    if c = btk then
      let run := rest.takeWhile (fun d => d ≠ btk)
      if run.length = 0 then inlineSpansF fuel rest (i + 1)
      else if run.length < rest.length then
        (i, i + run.length + 2) :: inlineSpansF fuel (rest.drop (run.length + 1)) (i + run.length + 2)
      else []
    else inlineSpansF fuel rest (i + 1)

/-- All inline-code spans of one line. -/
def inlineSpans (l : List Char) : List (Nat × Nat) :=
  inlineSpansF l.length l 0

/-- The line-by-line loop of `is_within_code_block`
(src/issue_to_hugo.py lines 49-69): for each line, if the queried position
lies within the line (both boundaries inclusive) while the fenced-block state
is on, report `true`; then flip the state on fence lines; report `true` when
the position lies (inclusively) inside an inline-code span of the line;
otherwise advance the running character count.  The loop falls through to the
final fenced-block state (line 71).  (The Python variable `in_inline_code` is
initialised to `False` and never assigned, so it is dropped here.) -/
def iwcbAux (position : Nat) : List (List Char) → Nat → Bool → Bool
  | [], _, icb => icb
  | line :: rest, cc, icb =>
    if cc ≤ position ∧ position ≤ cc + line.length + 1 ∧ icb = true then true
    else if (inlineSpans line).any
        (fun sp => decide (cc + sp.1 ≤ position) && decide (position ≤ cc + sp.2)) then true
    else iwcbAux position rest (cc + line.length + 1) (if fenceLine line then !icb else icb)

/-- `is_within_code_block(text, position)` (src/issue_to_hugo.py lines 39-71). -/
def is_within_code_block (text : List Char) (position : Nat) : Bool :=
  iwcbAux position (splitOnNl text) 0 false

/-- The fenced-block toggle alone, as the claim describes it: walking the
lines, the toggle is flipped once by each fence line, evaluated after the
containment test for that line; `true` iff the toggle is on for a line
containing the position (inclusive boundaries, as in the source loop). -/
def fenceOnAt (position : Nat) : List (List Char) → Nat → Bool → Bool
  | [], _, _ => false
  | line :: rest, cc, icb =>
    if cc ≤ position ∧ position ≤ cc + line.length + 1 ∧ icb = true then true
    else fenceOnAt position rest (cc + line.length + 1) (if fenceLine line then !icb else icb)

/-- Number of fence lines of a body. -/
def countFenceLines (text : List Char) : Nat :=
  (splitOnNl text).countP fenceLine

/-- The fenced-block state after all lines have been processed. -/
def finalFence (lines : List (List Char)) (icb : Bool) : Bool :=
  lines.foldl (fun b l => if fenceLine l then !b else b) icb

/-- `needle` is a prefix of `hay` (character-exact). -/
def startsWithL : List Char → List Char → Bool
  | [], _ => true
  | _ :: _, [] => false
  | a :: as, b :: bs => a = b && startsWithL as bs

/-- Python `needle in hay` substring containment. -/
def containsSub (needle : List Char) : List Char → Bool
  | [] => decide (needle = [])
  | c :: rest => startsWithL needle (c :: rest) || containsSub needle rest

/-- Strip a literal pattern from the front of a list, comparing characters
with `eqc`; returns the actually consumed characters (in their original case)
and the remainder.  Used for the literal parts of the regexes, with `eqc`
exact for case-sensitive patterns and lowercasing for `re.IGNORECASE`. -/
def stripPrefixBy (eqc : Char → Char → Bool) : List Char → List Char → Option (List Char × List Char)
  | [], s => some ([], s)
  | _ :: _, [] => none
  | p :: ps, c :: cs =>
    if eqc c p then (stripPrefixBy eqc ps cs).map (fun r => (c :: r.1, r.2))
    else none

/-- Exact character comparison. -/
def eqCS (a b : Char) : Bool := a = b

/-- Case-insensitive character comparison (ASCII lowering, matching the ASCII
letters of the regex literals involved). -/
def eqCI (a b : Char) : Bool := a.toLower = b.toLower

/-- The regex fragment `https?:\/\/`: try `https://` first (greedy `s?`),
falling back to `http://`; returns the consumed characters (original case)
and the rest. -/
def parseSchemeG (eqc : Char → Char → Bool) (s : List Char) : Option (List Char × List Char) :=
  match stripPrefixBy eqc (ofStr "https://") s with
  | some r => some r
  | none => stripPrefixBy eqc (ofStr "http://") s

/-- A match of the markdown-image regex `r"!\[([^\]]*?)\]\((https?:\/\/[^\)]+)\)"`
starting exactly at the head of `s`: literal `![`, then the lazy class
`[^\]]*?` (equivalently: the run of non-`]` characters up to the first `]`),
then `](`, the scheme, the greedy `[^\)]+` run (at least one character, up to
the first `)`), and the closing `)`.  Returns the `alt` group, the `url`
group, or `none` when the regex does not match here.  The full match length
is `5 + alt.length + url.length`. -/
def matchImgG (eqc : Char → Char → Bool) (s : List Char) : Option (List Char × List Char) :=
  match s with
  | c1 :: c2 :: rest =>
    if c1 = '!' ∧ c2 = '[' then
      let alt := rest.takeWhile (fun c => c ≠ ']')
      match rest.drop alt.length with
      | b1 :: b2 :: rest2 =>
        if b1 = ']' ∧ b2 = '(' then
          match parseSchemeG eqc rest2 with
          | some (scheme, rest3) =>
            let run := rest3.takeWhile (fun c => c ≠ ')')
            if run.length = 0 then none
            else
              match rest3.drop run.length with
              | d :: _ => if d = ')' then some (alt, scheme ++ run) else none
              | [] => none
          | none => none
        else none
      | _ => none
    else none
  | _ => none

/-- Case-sensitive markdown-image matcher, as used (without flags) by
`extract_cover_image` (src/issue_to_hugo.py line 75). -/
def matchImg (s : List Char) : Option (List Char × List Char) := matchImgG eqCS s

/-- Case-insensitive markdown-image matcher, as used (with `re.IGNORECASE`)
by `replace_image_urls` (src/issue_to_hugo.py lines 153, 187). -/
def matchImgCI (s : List Char) : Option (List Char × List Char) := matchImgG eqCI s

/-- One `re.finditer` match of the markdown-image regex. -/
structure ImgMatch where
  mstart : Nat
  mend : Nat
  alt : List Char
  url : List Char
deriving DecidableEq

/-- `re.finditer` of the markdown-image regex: scan left to right, taking the
leftmost match then continuing after its end (non-overlapping).  Fuel-driven;
each step consumes at least one character, so fuel `s.length` is exact. -/
def findMatchesF : Nat → List Char → Nat → List ImgMatch
  | 0, _, _ => []
  | _ + 1, [], _ => []
  | fuel + 1, c :: rest, i =>
    match matchImg (c :: rest) with
    | some (alt, url) =>
      let len := 5 + alt.length + url.length
      ⟨i, i + len, alt, url⟩ :: findMatchesF fuel (rest.drop (len - 1)) (i + len)
    | none => findMatchesF fuel rest (i + 1)

/-- All matches of the markdown-image regex over a body
(`list(re.finditer(img_pattern, body))`, src/issue_to_hugo.py line 76). -/
def findMatches (body : List Char) : List ImgMatch :=
  findMatchesF body.length body 0

/-- The match loop of `extract_cover_image` (src/issue_to_hugo.py lines
78-85): for each match in order, if its start is not inside a code region of
the original body, delete exactly the matched span and return the URL. -/
def coverScan (body : List Char) : List ImgMatch → Option (List Char) × List Char
  | [] => (none, body)
  | m :: ms =>
    if is_within_code_block body m.mstart then coverScan body ms
    else (some m.url, body.take m.mstart ++ body.drop m.mend)

/-- `extract_cover_image(body)` (src/issue_to_hugo.py lines 73-85). -/
def extract_cover_image (body : List Char) : Option (List Char) × List Char :=
  coverScan body (findMatches body)

/-- Python `str.replace("\r\n", "\n")`: left-to-right, non-overlapping. -/
def replaceCrlf : List Char → List Char
  | [] => []
  | [c] => [c]
  | c :: d :: rest =>
    if c = '\r' ∧ d = nl then nl :: replaceCrlf rest
    else c :: replaceCrlf (d :: rest)

/-- `re.findall(r"\$(.+?)\$", line)` on a single line: each match is a `$`,
a lazy `.+?` (at least one arbitrary character — `.` also matches `$` — up
to the earliest closing `$` at distance at least two), then `$`; scanning
resumes after the closing `$`.  Fuel-driven; fuel `s.length` is exact. -/
def findTagsF : Nat → List Char → List (List Char)
  | 0, _ => []
  | _ + 1, [] => []
  | fuel + 1, c :: rest =>
    if c = dollar then
      match rest with
      | [] => []
      | d :: rest2 =>
        let pre := rest2.takeWhile (fun e => e ≠ dollar)
        if pre.length < rest2.length then
          (d :: pre) :: findTagsF fuel (rest2.drop (pre.length + 1))
        else []
    else findTagsF fuel rest
where dollar : Char := '$'

/-- All `$...$` groups of one line. -/
def findTags (line : List Char) : List (List Char) :=
  findTagsF line.length line

/-- The tag tokens of a line: each `$...$` group, stripped, empties dropped
(src/issue_to_hugo.py lines 229-230). -/
def tagsOfLine (line : List Char) : List (List Char) :=
  ((findTags line).map pyStrip).filter (fun t => t ≠ [])

/-- Join lines with newlines (`"\n".join(...)`). -/
def joinNl (lines : List (List Char)) : List Char :=
  List.intercalate [nl] lines

/-- The stripped last line of a (normalized) body (src/issue_to_hugo.py
line 220; `splitOnNl` never returns `[]`, so the default is unreachable). -/
def lastLineOf (nb : List Char) : List Char :=
  pyStrip (((splitOnNl nb).getLast?).getD [])

/-- `char_position = len(body) - len(last_line)` (src/issue_to_hugo.py
line 221). -/
def tagPosOf (nb : List Char) : Nat :=
  nb.length - (lastLineOf nb).length

/-- The normalized body of `extract_tags_from_body`
(src/issue_to_hugo.py line 215): CRLF→LF, then right-strip. -/
def normBody (body : List Char) : List Char :=
  pyRstrip (replaceCrlf body)

/-- `extract_tags_from_body(body, logger)` (src/issue_to_hugo.py lines
210-237); the logger argument only emits debug messages and is dropped. -/
def extract_tags_from_body (body : List Char) : List (List Char) × List Char :=
  if body = [] then ([], body)
  else
    let nb := normBody body
    let lines := splitOnNl nb
    match lines.getLast? with
    | none => ([], nb)
    | some ll =>
      let lastLine := pyStrip ll
      let pos := nb.length - lastLine.length
      if is_within_code_block nb pos then ([], nb)
      else
        let tags := tagsOfLine lastLine
        if tags = [] then ([], nb)
        else (tags, pyRstrip (joinNl lines.dropLast))

/-- Index of the last occurrence of a character. -/
def lastIdxOf (ch : Char) (l : List Char) : Option Nat :=
  (((l.enum).filter (fun p => p.2 = ch)).map Prod.fst).getLast?

/-- `re.sub(r"\?.*$", "", s)`: `.` does not cross newlines and `$` matches
only at the end of the string or just before a terminal newline, so the
removed span starts at the first `?` of the final line (the final segment
after the last non-terminal newline) and runs to the end; a terminal newline
survives.  If that final line has no `?`, nothing is removed. -/
def stripQuery (s : List Char) : List Char :=
  let endsNl := decide (s.getLast? = some nl)
  let t := if endsNl then s.dropLast else s
  let tailLine := (t.reverse.takeWhile (fun c => c ≠ nl)).reverse
  let lineStart := t.length - tailLine.length
  match List.findIdx? (fun c => c = '?') tailLine with
  | some k => t.take (lineStart + k) ++ (if endsNl then [nl] else [])
  | none => s

/-- `os.path.basename`: the part after the last `/`. -/
def basename (p : List Char) : List Char :=
  (p.reverse.takeWhile (fun c => c ≠ '/')).reverse

/-- Hexadecimal value of a character, if any. -/
def hexVal (c : Char) : Option Nat :=
  if '0' ≤ c ∧ c ≤ '9' then some (c.toNat - 48)
  else if 'a' ≤ c ∧ c ≤ 'f' then some (c.toNat - 87)
  else if 'A' ≤ c ∧ c ≤ 'F' then some (c.toNat - 55)
  else none

/-- `urllib.parse.unquote`, modelled for single-byte percent escapes: each
`%XX` with two hex digits becomes the character with that code point (for
ASCII bytes this coincides with Python; multi-byte UTF-8 escape runs are not
reassembled, a simplification of the standard library outside the repository). -/
def unquote : List Char → List Char
  | [] => []
  | '%' :: a :: b :: rest =>
    match hexVal a, hexVal b with
    | some x, some y => Char.ofNat (16 * x + y) :: unquote rest
    | _, _ => '%' :: unquote (a :: b :: rest)
  | c :: rest => c :: unquote rest

/-- CPython `posixpath.splitext`: split at the last dot, provided it comes
after the last `/` and at least one non-dot character stands between the
start of the basename and that dot. -/
def splitext (p : List Char) : List Char × List Char :=
  let sepStart := match lastIdxOf '/' p with
    | some k => k + 1
    | none => 0
  match lastIdxOf '.' p with
  | some d =>
    if sepStart ≤ d ∧ ((p.drop sepStart).take (d - sepStart)).any (fun c => c ≠ '.') then
      (p.take d, p.drop d)
    else (p, [])
  | none => (p, [])

/-- The character class `[a-zA-Z0-9\-_]` of the stem sanitizer. -/
def safeChar (c : Char) : Bool :=
  decide (('a' ≤ c ∧ c ≤ 'z') ∨ ('A' ≤ c ∧ c ≤ 'Z') ∨ ('0' ≤ c ∧ c ≤ '9') ∨ c = '-' ∨ c = '_')

/-- Lowercase a character list (`str.lower()`, ASCII letters as in the
extension comparisons of the source). -/
def listLower (l : List Char) : List Char := l.map Char.toLower

/-- The accepted image extensions (src/issue_to_hugo.py lines 97 and 133). -/
def validExtensions : List (List Char) :=
  [ofStr ".jpg", ofStr ".jpeg", ofStr ".png", ofStr ".gif", ofStr ".webp"]

/-- `decoded_name` of `safe_filename` (src/issue_to_hugo.py lines 89-91):
query string stripped, basename taken, URL-decoded. -/
def sfDecoded (filename : List Char) : List Char :=
  unquote (basename (stripQuery filename))

/-- `name` of `safe_filename` (line 93). -/
def sfName (filename : List Char) : List Char := (splitext (sfDecoded filename)).1

/-- `ext` of `safe_filename` before validation (line 93). -/
def sfExt0 (filename : List Char) : List Char := (splitext (sfDecoded filename)).2

/-- `safe_name` of `safe_filename` (line 94): every character outside
`[a-zA-Z0-9\-_]` replaced by `_`. -/
def sfSafeName (filename : List Char) : List Char :=
  (sfName filename).map (fun c => if safeChar c then c else '_')

/-- The validated extension (lines 97-99): kept only when its lowercase form
is an accepted image extension, dropped otherwise. -/
def sfExt (filename : List Char) : List Char :=
  if decide (listLower (sfExt0 filename) ∈ validExtensions) then sfExt0 filename else []

/-- The capped stem (lines 102-103). -/
def sfStem (filename : List Char) : List Char :=
  if (sfSafeName filename).length > 100 - (sfExt filename).length then
    (sfSafeName filename).take (100 - (sfExt filename).length)
  else sfSafeName filename

/-- `safe_filename(filename)` (src/issue_to_hugo.py lines 87-105). -/
def safe_filename (filename : List Char) : List Char :=
  sfStem filename ++ sfExt filename

/-- Decimal digits of a natural number (Python `f"{n}"`). -/
def natChars (n : Nat) : List Char := (Nat.repr n).toList

/-- The local filename `f"{issue_number}_{safe_filename(img_url)}"`
(src/issue_to_hugo.py lines 163 and 178). -/
def localImageFilename (issue_number : Nat) (img_url : List Char) : List Char :=
  natChars issue_number ++ '_' :: safe_filename img_url

/-- `os.path.join` on posix, for a relative second component. -/
def pathJoin (dir file : List Char) : List Char :=
  if dir = [] then file
  else if dir.getLast? = some '/' then dir ++ file
  else dir ++ '/' :: file

/-- The outcome of one `requests.get`: an exception, or a response with a
status code and a content-type header. -/
inductive FetchResult where
  | exc : FetchResult
  | resp (status : Nat) (contentType : List Char) : FetchResult
deriving DecidableEq

/-- An oracle describing what every fetch of a URL returns. -/
def Fetch : Type := List Char → FetchResult

/-- The extension derived from a response content-type (src/issue_to_hugo.py
lines 120-129): lowercase, substring tests in source order, `.jpg` default. -/
def extFromContentType (contentType : List Char) : List Char :=
  let ct := listLower contentType
  if containsSub (ofStr "image/png") ct then ofStr ".png"
  else if containsSub (ofStr "image/jpeg") ct then ofStr ".jpg"
  else if containsSub (ofStr "image/gif") ct then ofStr ".gif"
  else if containsSub (ofStr "image/webp") ct then ofStr ".webp"
  else ofStr ".jpg"

/-- `download_image(url, output_path, token)` (src/issue_to_hugo.py lines
107-145): any exception is caught and yields `None`; a non-200 status yields
`None`; on success the output path keeps its extension when it is an accepted
image extension and otherwise gets the content-type-derived one, and the
final path is returned.  (The byte write to disk is an effect outside the
returned value; the token only populates a request header.) -/
def download_image (f : Fetch) (url output_path : List Char) : Option (List Char) :=
  match f url with
  | .exc => none
  | .resp status contentType =>
    if status = 200 then
      let ext := extFromContentType contentType
      let be := splitext output_path
      some (if decide (listLower be.2 ∈ validExtensions) then output_path else be.1 ++ ext)
    else none

/-- `md_replacer(match)` (src/issue_to_hugo.py lines 157-169): skip matches
inside code regions of the pass's original body; otherwise download and, on
success, rewrite to `![alt](final_basename)`; on failure return the match
text unchanged. -/
def md_replacer (f : Fetch) (origBody : List Char) (issue_number : Nat)
    (output_dir : List Char) (start : Nat) (alt url matched : List Char) : List Char :=
  if is_within_code_block origBody start then matched
  else
    match download_image f url (pathJoin output_dir (localImageFilename issue_number url)) with
    | some final_path => '!' :: '[' :: alt ++ ']' :: '(' :: basename final_path ++ [')']
    | none => matched

/-- `re.search(r'alt=["\']?([^"\'>]+)["\']?', matched)` inside
`html_replacer` (src/issue_to_hugo.py line 176): first position where the
case-sensitive literal `alt=` is followed by an optional quote and a
non-empty run of characters outside `"`, `'`, `>`. -/
def altCont (u : List Char) : Option (List Char) :=
  let u1 := match u with
    | c :: r => if c = '"' ∨ c = qt then r else u
    | [] => u
  let run := u1.takeWhile (fun c => ¬ (c = '"' ∨ c = qt ∨ c = '>'))
  if run.length = 0 then none else some run

/-- Left-to-right scan of `searchAlt` (see `altCont`). -/
def searchAlt : List Char → Option (List Char)
  | [] => none
  | c :: rest =>
    match stripPrefixBy eqCS (ofStr "alt=") (c :: rest) with
    | some r =>
      match altCont r.2 with
      | some run => some run
      | none => searchAlt rest
    | none => searchAlt rest

/-- The continuation of the HTML image regex after the literal `src=`:
optional quote (greedy), the captured `https?://[^"\'>]+` URL (greedy run of
at least one character), optional closing quote.  Returns the URL group and
the number of characters consumed after `src=`. -/
def srcCont (u : List Char) : Option (List Char × Nat) :=
  let q1 : Nat := match u with
    | c :: _ => if c = '"' ∨ c = qt then 1 else 0
    | [] => 0
  let u1 := u.drop q1
  match parseSchemeG eqCI u1 with
  | none => none
  | some (scheme, u2) =>
    let run := u2.takeWhile (fun c => ¬ (c = '"' ∨ c = qt ∨ c = '>'))
    if run.length = 0 then none
    else
      let q2 : Nat := match u2.drop run.length with
        | c :: _ => if c = '"' ∨ c = qt then 1 else 0
        | [] => 0
      some (scheme ++ run, q1 + scheme.length + run.length + q2)

/-- The greedy `[^>]+` of the HTML image regex followed by `src=...`: try the
split point `k` (number of characters matched by `[^>]+`) from largest to
smallest, at least one. -/
def findSrc (t : List Char) : Nat → Option (List Char × Nat)
  | 0 => none
  | k + 1 =>
    match stripPrefixBy eqCI (ofStr "src=") (t.drop (k + 1)) with
    | some r =>
      match srcCont r.2 with
      | some (url, clen) => some (url, (k + 1) + 4 + clen)
      | none => findSrc t k
    | none => findSrc t k

/-- A match of `r'<img[^>]+src=["\']?(https?:\/\/[^"\'>]+)["\']?'` (with
`re.IGNORECASE`) at the head of `s`: returns the URL group and the total
match length.  Note the pattern ends at the optional quote after the URL:
the rest of the tag (further attributes, the closing `>`) is not part of the
match. -/
def matchHtmlImg (s : List Char) : Option (List Char × Nat) :=
  match stripPrefixBy eqCI (ofStr "<img") s with
  | some r =>
    match findSrc r.2 ((r.2.takeWhile (fun c => c ≠ '>')).length) with
    | some (url, innerLen) => some (url, 4 + innerLen)
    | none => none
  | none => none

/-- `html_replacer(match)` (src/issue_to_hugo.py lines 171-184): like
`md_replacer`, with the alt text searched inside the matched span only
(default `Image`). -/
def html_replacer (f : Fetch) (origBody : List Char) (issue_number : Nat)
    (output_dir : List Char) (start : Nat) (url matched : List Char) : List Char :=
  if is_within_code_block origBody start then matched
  else
    match download_image f url (pathJoin output_dir (localImageFilename issue_number url)) with
    | some final_path =>
      '!' :: '[' :: (searchAlt matched).getD (ofStr "Image")
        ++ ']' :: '(' :: basename final_path ++ [')']
    | none => matched

/-- The `re.sub` scan of the markdown-image pass: code-region classification
and replacement decisions are made against `origBody`, the body as it stood
when the pass started (the Python closure captures the pass's input string).
Fuel-driven; fuel `s.length` is exact. -/
def mdPassGo (f : Fetch) (issue_number : Nat) (output_dir origBody : List Char) :
    Nat → List Char → Nat → List Char
  | 0, s, _ => s
  | _ + 1, [], _ => []
  | fuel + 1, c :: rest, i =>
    match matchImgCI (c :: rest) with
    | some (alt, url) =>
      md_replacer f origBody issue_number output_dir i alt url
          ((c :: rest).take (5 + alt.length + url.length))
        ++ mdPassGo f issue_number output_dir origBody fuel
            (rest.drop (5 + alt.length + url.length - 1)) (i + (5 + alt.length + url.length))
    | none => c :: mdPassGo f issue_number output_dir origBody fuel rest (i + 1)

/-- The markdown-image pass of `replace_image_urls`
(src/issue_to_hugo.py line 187). -/
def mdPass (f : Fetch) (issue_number : Nat) (output_dir body : List Char) : List Char :=
  mdPassGo f issue_number output_dir body body.length body 0

/-- The `re.sub` scan of the HTML image pass (src/issue_to_hugo.py line 188);
fuel-driven like `mdPassGo`. -/
def htmlPassGo (f : Fetch) (issue_number : Nat) (output_dir origBody : List Char) :
    Nat → List Char → Nat → List Char
  | 0, s, _ => s
  | _ + 1, [], _ => []
  | fuel + 1, c :: rest, i =>
    match matchHtmlImg (c :: rest) with
    | some (url, len) =>
      html_replacer f origBody issue_number output_dir i url ((c :: rest).take len)
        ++ htmlPassGo f issue_number output_dir origBody fuel (rest.drop (len - 1)) (i + len)
    | none => c :: htmlPassGo f issue_number output_dir origBody fuel rest (i + 1)

/-- The HTML image pass of `replace_image_urls`. -/
def htmlPass (f : Fetch) (issue_number : Nat) (output_dir body : List Char) : List Char :=
  htmlPassGo f issue_number output_dir body body.length body 0

/-- `replace_image_urls(body, issue_number, output_dir, token)`
(src/issue_to_hugo.py lines 147-189): the markdown pass over the input body,
then the HTML pass over its result.  The token is folded into the fetch
oracle `f`. -/
def replace_image_urls (f : Fetch) (body : List Char) (issue_number : Nat)
    (output_dir : List Char) : List Char :=
  htmlPass f issue_number output_dir (mdPass f issue_number output_dir body)

/-- A fetch of `u` fails: either it raises, or it returns a non-200 status. -/
def downloadFails (f : Fetch) (u : List Char) : Prop :=
  f u = .exc ∨ ∃ st ct, f u = .resp st ct ∧ st ≠ 200

/-- A parsed HTML fragment as BeautifulSoup sees it: text nodes and elements
with a tag name and children.  (Attributes play no role in the sanitizer: it
inspects tag names only and `unwrap` keeps children; they are therefore not
modelled.) -/
inductive Html where
  | text (s : List Char) : Html
  | elem (tag : List Char) (children : List Html) : Html

/-- The sanitizer allow-list (src/issue_to_hugo.py lines 198-202). -/
def allowed_tags : List (List Char) :=
  [ofStr "p", ofStr "a", ofStr "code", ofStr "pre", ofStr "blockquote",
   ofStr "ul", ofStr "ol", ofStr "li", ofStr "strong", ofStr "em",
   ofStr "img", ofStr "h1", ofStr "h2", ofStr "h3", ofStr "h4", ofStr "h5", ofStr "h6"]

mutual

/-- The effect of the `find_all(True)`/`unwrap` loop of `sanitize_markdown`
(src/issue_to_hugo.py lines 204-206) on one node: a disallowed element loses
its own markers and its (recursively sanitized) children are spliced into the
parent in place; an allowed element is kept.  (`find_all` materializes the
descendant list before the loop, so descendants of unwrapped elements are
still visited.) -/
def sanitizeTree : Html → List Html
  | .text s => [.text s]
  | .elem t cs =>
    if decide (t ∈ allowed_tags) then [.elem t (sanitizeForest cs)]
    else sanitizeForest cs

/-- `sanitizeTree` over a sibling list. -/
def sanitizeForest : List Html → List Html
  | [] => []
  | h :: hs => sanitizeTree h ++ sanitizeForest hs

end

mutual

/-- Serialization of a node back to text (`str(soup)`, with elements printed
as tag markers around their children; bs4 entity escaping is not modelled). -/
def serializeTree : Html → List Char
  | .text s => s
  | .elem t cs => '<' :: t ++ '>' :: serializeForest cs ++ '<' :: '/' :: t ++ ['>']

/-- Serialization of a sibling list. -/
def serializeForest : List Html → List Char
  | [] => []
  | h :: hs => serializeTree h ++ serializeForest hs

end

mutual

/-- The concatenated text content of a node, in document order. -/
def textTree : Html → List Char
  | .text s => s
  | .elem _ cs => textForest cs

/-- Text content of a sibling list. -/
def textForest : List Html → List Char
  | [] => []
  | h :: hs => textTree h ++ textForest hs

end

mutual

/-- All element tag names occurring in a node. -/
def tagsTree : Html → List (List Char)
  | .text _ => []
  | .elem t cs => t :: tagsForest cs

/-- Tag names of a sibling list. -/
def tagsForest : List Html → List (List Char)
  | [] => []
  | h :: hs => tagsTree h ++ tagsForest hs

end

mutual

/-- Every element of the node is allow-listed. -/
def onlyAllowedTree : Html → Bool
  | .text _ => true
  | .elem t cs => decide (t ∈ allowed_tags) && onlyAllowedForest cs

/-- `onlyAllowedTree` over a sibling list. -/
def onlyAllowedForest : List Html → Bool
  | [] => true
  | h :: hs => onlyAllowedTree h && onlyAllowedForest hs

end

/-- `sanitize_markdown(content)` (src/issue_to_hugo.py lines 191-208): falsy
input (absent or empty) yields the empty string; otherwise the parsed tree is
sanitized and re-serialized.  The parser itself is BeautifulSoup, an external
collaborator, and is passed as an oracle. -/
def sanitize_markdown (parse : List Char → List Html) (content : Option (List Char)) : List Char :=
  match content with
  | none => []
  | some c => if c = [] then [] else serializeForest (sanitizeForest (parse c))

/-- A source document as the pipeline sees it (GitHub issue fields; the two
date strings stand for `created_at.strftime("%Y-%m-%d")` and `%Y%m%d`). -/
structure IssueM where
  number : Nat
  title : List Char
  body : Option (List Char)
  labels : List (List Char)
  state : List Char
  dateYmd : List Char
  dateCompact : List Char
deriving DecidableEq

/-- The publish label (src/issue_to_hugo.py line 20). -/
def PUBLISH_LABEL : List Char := ofStr "发布"

/-- The category vocabulary (src/issue_to_hugo.py line 17). -/
def CATEGORY_MAP : List (List Char) :=
  [ofStr "生活", ofStr "技术", ofStr "学习", ofStr "思考", ofStr "项目"]

/-- The default category (src/issue_to_hugo.py line 269). -/
def DEFAULT_CATEGORY : List Char := ofStr "未分类"

/-- The eligibility test of `convert_issue` (src/issue_to_hugo.py line 245):
the publish label is present and the issue is open. -/
def eligible (issue : IssueM) : Bool :=
  decide (PUBLISH_LABEL ∈ issue.labels) && decide (issue.state = ofStr "open")

/-- The category of an issue: first label in the vocabulary, else the default
(src/issue_to_hugo.py lines 268-269). -/
def categoryOf (issue : IssueM) : List Char :=
  ((issue.labels.filter (fun l => decide (l ∈ CATEGORY_MAP))).head?).getD DEFAULT_CATEGORY

/-- `title.replace('"', '\\"')`. -/
def escQuote (s : List Char) : List Char :=
  (s.map (fun c => if c = '"' then ['\\', '"'] else [c])).flatten

/-- A JSON string literal (as `json.dumps` renders the tag strings; quote and
backslash escapes modelled — tags come from a single line, so the control
characters that `json.dumps` would additionally escape cannot occur there). -/
def jsonStr (s : List Char) : List Char :=
  '"' :: (s.map (fun c =>
    if c = '"' then ['\\', '"'] else if c = '\\' then ['\\', '\\'] else [c])).flatten ++ ['"']

/-- `json.dumps` of a string list (default `", "` separator). -/
def jsonList (ts : List (List Char)) : List Char :=
  '[' :: List.intercalate (ofStr ", ") (ts.map jsonStr) ++ [']']

/-- The front-matter line list (src/issue_to_hugo.py lines 285-297): the six
fixed lines, the optional `image:` line when a cover name is present, and the
closing `---` with its trailing newline. -/
def frontmatterLines (issue : IssueM) (category : List Char) (tags : List (List Char))
    (cover_name : Option (List Char)) : List (List Char) :=
  let ls := [ofStr "---",
    ofStr "title: \"" ++ escQuote issue.title ++ ['"'],
    ofStr "date: \"" ++ issue.dateYmd ++ ['"'],
    ofStr "slug: \"" ++ issue.dateCompact ++ '_' :: natChars issue.number ++ ['"'],
    ofStr "categories: [\"" ++ escQuote category ++ ofStr "\"]",
    ofStr "tags: " ++ jsonList tags]
  let ls2 := match cover_name with
    | some cn => ls ++ [ofStr "image: \"" ++ cn ++ ['"']]
    | none => ls
  ls2 ++ [ofStr "---\n"]

/-- The front matter string (`"\n".join(frontmatter_lines)`). -/
def frontmatter (issue : IssueM) (category : List Char) (tags : List (List Char))
    (cover_name : Option (List Char)) : List Char :=
  joinNl (frontmatterLines issue category tags cover_name)

/-- Filesystem effects of one conversion, in program order.  (Downloads of
image bytes happen inside `download_image` and are not listed; the claims
under study concern the directory creation, the content file and the failure
artifact.) -/
inductive Effect where
  | mkdirp (path : List Char) : Effect
  | fileWrite (path content : List Char) : Effect
deriving DecidableEq

/-- Fault injection for the stages of `convert_issue`: `some msg` means the
corresponding call raises an exception rendering as `msg`; `errorWrite` makes
the failure-artifact write itself raise. -/
structure Faults where
  cover : Option (List Char)
  tags : Option (List Char)
  sanitize : Option (List Char)
  images : Option (List Char)
  errorWrite : Option (List Char)
deriving DecidableEq

/-- No injected faults. -/
def Faults.clear : Faults := ⟨none, none, none, none, none⟩

/-- Some transformation stage raises. -/
def Faults.anyStage (ft : Faults) : Bool :=
  ft.cover.isSome || ft.tags.isSome || ft.sanitize.isSome || ft.images.isSome

/-- The outcome of `convert_issue`: a returned boolean, or an exception that
escaped it. -/
inductive ConvResult where
  | ok (converted : Bool) : ConvResult
  | raised (msg : List Char) : ConvResult
deriving DecidableEq

/-- The post directory `os.path.join(output_dir, f"{pub_date}_{number}")`. -/
def postDirOf (output_dir : List Char) (issue : IssueM) : List Char :=
  pathJoin output_dir (issue.dateCompact ++ '_' :: natChars issue.number)

/-- The content file path `post_dir/index.md`. -/
def indexPathOf (output_dir : List Char) (issue : IssueM) : List Char :=
  pathJoin (postDirOf output_dir issue) (ofStr "index.md")

/-- The failure-artifact path `output_dir/ERROR_{number}.tmp`
(src/issue_to_hugo.py line 309). -/
def errPathOf (output_dir : List Char) (issue : IssueM) : List Char :=
  pathJoin output_dir (ofStr "ERROR_" ++ natChars issue.number ++ ofStr ".tmp")

/-- The exception handler of `convert_issue` (src/issue_to_hugo.py lines
307-312): the post directory was already created; the failure artifact is
written (unless that write itself raises, in which case the exception
escapes) and `False` is returned. -/
def convertFail (ft : Faults) (output_dir : List Char) (issue : IssueM) (msg : List Char) :
    List Effect × ConvResult :=
  match ft.errorWrite with
  | some m => ([.mkdirp (postDirOf output_dir issue)], .raised m)
  | none =>
    ([.mkdirp (postDirOf output_dir issue),
      .fileWrite (errPathOf output_dir issue) (ofStr "转换错误: " ++ msg)],
     .ok false)

/-- The cover download of `convert_issue` (src/issue_to_hugo.py lines
272-282): the basename of the downloaded cover path, when a cover URL was
extracted and its fetch succeeds. -/
def coverNameOf (f : Fetch) (output_dir : List Char) (issue : IssueM) : Option (List Char) :=
  match (extract_cover_image (issue.body.getD [])).1 with
  | some cu =>
    (download_image f cu
      (pathJoin (postDirOf output_dir issue) (ofStr "cover_" ++ safe_filename cu))).map basename
  | none => none

/-- `convert_issue(issue, output_dir, token, logger)` (src/issue_to_hugo.py
lines 239-312), with the fetch oracle `f`, the BeautifulSoup parse oracle,
injected stage faults, and `dirExists` standing for
`os.path.exists(post_dir)`.  Returns the filesystem effects in order and the
outcome.  An exception in any stage jumps to the handler (`convertFail`). -/
def convert_issue (f : Fetch) (parse : List Char → List Html) (ft : Faults)
    (dirExists : Bool) (issue : IssueM) (output_dir : List Char) :
    List Effect × ConvResult :=
  if eligible issue then
    if dirExists then ([], .ok false)
    else
      match ft.cover with
      | some m => convertFail ft output_dir issue m
      | none =>
        match ft.tags with
        | some m => convertFail ft output_dir issue m
        | none =>
          match ft.sanitize with
          | some m => convertFail ft output_dir issue m
          | none =>
            match ft.images with
            | some m => convertFail ft output_dir issue m
            | none =>
              ([.mkdirp (postDirOf output_dir issue),
                .fileWrite (indexPathOf output_dir issue)
                  (frontmatter issue (categoryOf issue)
                    (extract_tags_from_body (extract_cover_image (issue.body.getD [])).2).1
                    (coverNameOf f output_dir issue)
                   ++ replace_image_urls f
                        (sanitize_markdown parse
                          (some (extract_tags_from_body
                            (extract_cover_image (issue.body.getD [])).2).2))
                        issue.number (postDirOf output_dir issue))],
               .ok true)
  else ([], .ok false)

/-- The error comment `main` posts on a per-issue exception
(src/issue_to_hugo.py lines 359-361), including the length truncation. -/
def mkErrorComment (msg : List Char) : List Char :=
  let full := ofStr "⚠️ 转换失败，请检查格式:\n\n```\n" ++ msg ++ ofStr "\n```"
  if full.length > 65536 then full.take 65000 ++ ofStr "\n```\n...(内容过长)"
  else full

/-- The accumulated state of the `main` processing loop
(src/issue_to_hugo.py lines 339-372). -/
structure RunState where
  processed : Nat
  errors : Nat
  comments : List (Nat × List Char)
  labeledErrors : List Nat
  effects : List Effect

/-- One iteration of the issue loop of `main` (src/issue_to_hugo.py lines
348-372): a normal return feeds the processed counter; an exception escaping
`convert_issue` increments the error count, posts the error comment and
applies the error label. -/
def processOne (f : Fetch) (parse : List Char → List Html) (output_dir : List Char)
    (st : RunState) (item : IssueM × Faults × Bool) : RunState :=
  match convert_issue f parse item.2.1 item.2.2 item.1 output_dir with
  | (effs, .ok b) =>
    { st with processed := st.processed + (if b then 1 else 0),
              effects := st.effects ++ effs }
  | (effs, .raised msg) =>
    { st with errors := st.errors + 1,
              comments := st.comments ++ [(item.1.number, mkErrorComment msg)],
              labeledErrors := st.labeledErrors ++ [item.1.number],
              effects := st.effects ++ effs }

/-- The issue loop of `main` over a batch. -/
def processIssues (f : Fetch) (parse : List Char → List Html) (output_dir : List Char)
    (items : List (IssueM × Faults × Bool)) : RunState :=
  items.foldl (processOne f parse output_dir) ⟨0, 0, [], [], []⟩

/-- The conversion outcome of one batch item. -/
def convOutcome (f : Fetch) (parse : List Char → List Html) (output_dir : List Char)
    (it : IssueM × Faults × Bool) : ConvResult :=
  (convert_issue f parse it.2.1 it.2.2 it.1 output_dir).2

/-- Did the conversion raise past `convert_issue`? -/
def ConvResult.isRaised : ConvResult → Bool
  | .raised _ => true
  | .ok _ => false

/-- Did the conversion produce a content unit? -/
def ConvResult.isConverted : ConvResult → Bool
  | .ok b => b
  | .raised _ => false

/-- The escaped exception message (empty for normal returns). -/
def ConvResult.msgOf : ConvResult → List Char
  | .raised m => m
  | .ok _ => []

/-- A fetch oracle on which every request raises. -/
def fExc : Fetch := fun _ => FetchResult.exc

/-- A parse oracle for bodies without HTML markup: one text node, as
BeautifulSoup parses plain text. -/
def parseText : List Char → List Html := fun s => [Html.text s]

/-- A concrete publishable issue whose body opens with a cover image
reference. -/
def issueDemo : IssueM :=
  ⟨9, ofStr "T", some (ofStr "![c](http://h/a.png)\nhello"),
   [ofStr "发布"], ofStr "open", ofStr "2024-01-02", ofStr "20240102"⟩

/-- A fault making the cover stage raise with message `boom`. -/
def faultCover : Faults := ⟨some (ofStr "boom"), none, none, none, none⟩

/-! ## Theorems -/

theorem splitOnNl_ne_nil (s : List Char) : splitOnNl s ≠ [] := by
  cases s with
  | nil => simp [splitOnNl]
  | cons c rest =>
    simp only [splitOnNl]
    split
    · simp
    · split <;> simp

theorem fenceOnAt_imp_iwcbAux (pos : Nat) :
    ∀ (lines : List (List Char)) (cc : Nat) (icb : Bool),
      fenceOnAt pos lines cc icb = true → iwcbAux pos lines cc icb = true := by
  intro lines
  induction lines with
  | nil => intro cc icb h; simp [fenceOnAt] at h
  | cons line rest ih =>
    intro cc icb h
    by_cases hC : cc ≤ pos ∧ pos ≤ cc + line.length + 1 ∧ icb = true
    · simp [iwcbAux, hC]
    · rw [fenceOnAt, if_neg hC] at h
      rw [iwcbAux, if_neg hC]
      split
      · rfl
      · exact ih _ _ h

theorem finalFence_imp_iwcbAux (pos : Nat) :
    ∀ (lines : List (List Char)) (cc : Nat) (icb : Bool),
      finalFence lines icb = true → iwcbAux pos lines cc icb = true := by
  intro lines
  induction lines with
  | nil => intro cc icb h; simpa [finalFence] using h
  | cons line rest ih =>
    intro cc icb h
    have h2 : finalFence rest (if fenceLine line then !icb else icb) = true := by
      simpa [finalFence, List.foldl_cons] using h
    by_cases hC : cc ≤ pos ∧ pos ≤ cc + line.length + 1 ∧ icb = true
    · simp [iwcbAux, hC]
    · rw [iwcbAux, if_neg hC]
      split
      · rfl
      · exact ih _ _ h2

theorem finalFence_parity :
    ∀ (lines : List (List Char)) (icb : Bool),
      finalFence lines icb = (icb ^^ decide (lines.countP fenceLine % 2 = 1)) := by
  intro lines
  induction lines with
  | nil => intro icb; simp [finalFence]
  | cons line rest ih =>
    intro icb
    have hstep : finalFence (line :: rest) icb
        = finalFence rest (if fenceLine line then !icb else icb) := by
      simp [finalFence, List.foldl_cons]
    rw [hstep, ih]
    rw [List.countP_cons]
    by_cases hf : fenceLine line
    · have hiff : ((rest.countP fenceLine + 1) % 2 = 1) ↔ ¬(rest.countP fenceLine % 2 = 1) := by
        omega
      have hd : decide ((rest.countP fenceLine + 1) % 2 = 1)
          = !decide (rest.countP fenceLine % 2 = 1) := by
        rw [decide_eq_decide.mpr hiff, decide_not]
      simp only [hf, if_pos, if_true]
      rw [hd]
      cases icb <;> cases decide (rest.countP fenceLine % 2 = 1) <;> rfl
    · simp only [hf, if_neg, if_false]
      simp [hf]

/-- Claim C1: `is_within_code_block` reports an offset as code whenever the
fenced-block toggle — flipped once by each fence line and evaluated before
that line's own fence — is on for the line containing the offset; and for a
body with an odd number of fence lines every offset whatsoever (in
particular every offset on every line after the last fence line) is
classified as inside a code region, because the loop falls through to the
final toggle state. -/
theorem is_within_code_block_c1 (text : List Char) (pos : Nat) :
    (fenceOnAt pos (splitOnNl text) 0 false = true → is_within_code_block text pos = true)
    ∧ (countFenceLines text % 2 = 1 → is_within_code_block text pos = true) := by
  constructor
  · intro h
    exact fenceOnAt_imp_iwcbAux pos _ 0 false h
  · intro h
    apply finalFence_imp_iwcbAux pos _ 0 false
    rw [finalFence_parity]
    simp [countFenceLines] at h
    simp [h]

/-- Witness for C1 at concrete inputs: an offset on the line after an opening
fence satisfies the toggle predicate and is classified as code, and a body
with a single (unclosed) fence line classifies a late offset as code. -/
theorem is_within_code_block_c1_witness :
    (fenceOnAt 6 (splitOnNl (ofStr "```\ncode here")) 0 false = true
      ∧ is_within_code_block (ofStr "```\ncode here") 6 = true)
    ∧ (countFenceLines (ofStr "```\ntext\nmore") % 2 = 1
      ∧ is_within_code_block (ofStr "```\ntext\nmore") 11 = true) :=
  ⟨⟨by decide, (is_within_code_block_c1 (ofStr "```\ncode here") 6).1 (by decide)⟩,
   ⟨by decide, (is_within_code_block_c1 (ofStr "```\ntext\nmore") 11).2 (by decide)⟩⟩

theorem findMatchesF_mstart_le :
    ∀ (fuel : Nat) (s : List Char) (i : Nat) (m : ImgMatch),
      m ∈ findMatchesF fuel s i → i ≤ m.mstart := by
  intro fuel
  induction fuel with
  | zero => intro s i m h; simp [findMatchesF] at h
  | succ fuel ih =>
    intro s i m h
    cases s with
    | nil => simp [findMatchesF] at h
    | cons c rest =>
      rw [findMatchesF] at h
      cases hm : matchImg (c :: rest) with
      | none =>
        rw [hm] at h
        exact Nat.le_of_succ_le (ih _ _ _ h)
      | some au =>
        obtain ⟨alt, url⟩ := au
        rw [hm] at h
        simp only [List.mem_cons] at h
        rcases h with h | h
        · subst h; exact Nat.le_refl _
        · have := ih _ _ _ h
          omega

theorem findMatchesF_pairwise :
    ∀ (fuel : Nat) (s : List Char) (i : Nat),
      (findMatchesF fuel s i).Pairwise (fun a b => a.mstart < b.mstart) := by
  intro fuel
  induction fuel with
  | zero => intro s i; simp [findMatchesF]
  | succ fuel ih =>
    intro s i
    cases s with
    | nil => simp [findMatchesF]
    | cons c rest =>
      rw [findMatchesF]
      cases hm : matchImg (c :: rest) with
      | none => exact ih _ _
      | some au =>
        obtain ⟨alt, url⟩ := au
        refine List.Pairwise.cons ?_ (ih _ _)
        intro m hm2
        have := findMatchesF_mstart_le _ _ _ _ hm2
        simp only
        omega

theorem coverScan_filter (body : List Char) :
    ∀ ms : List ImgMatch,
      coverScan body ms =
        match ms.filter (fun m2 => !(is_within_code_block body m2.mstart)) with
        | [] => (none, body)
        | m :: _ => (some m.url, body.take m.mstart ++ body.drop m.mend) := by
  intro ms
  induction ms with
  | nil => rfl
  | cons m ms ih =>
    by_cases h : is_within_code_block body m.mstart = true
    · rw [coverScan, if_pos h, ih]
      simp [List.filter_cons, h]
    · rw [coverScan, if_neg h]
      simp [List.filter_cons, h]

/-- Claim C2: `extract_cover_image` returns the URL of the first (leftmost —
the match list is strictly increasing in start offset) markdown image
reference whose start offset is not inside a code region, with exactly that
matched span deleted from the body; references inside code regions are
skipped in place; when no eligible reference exists it returns no cover and
the body unchanged. -/
theorem extract_cover_image_c2 (body : List Char) :
    ((findMatches body).Pairwise (fun a b => a.mstart < b.mstart))
    ∧ (∀ m : ImgMatch,
        ((findMatches body).filter
          (fun m2 => !(is_within_code_block body m2.mstart))).head? = some m →
        extract_cover_image body = (some m.url, body.take m.mstart ++ body.drop m.mend))
    ∧ (((findMatches body).filter
          (fun m2 => !(is_within_code_block body m2.mstart))) = [] →
        extract_cover_image body = (none, body)) := by
  refine ⟨findMatchesF_pairwise _ _ _, ?_, ?_⟩
  · intro m hm
    rw [extract_cover_image, coverScan_filter]
    cases hfil : (findMatches body).filter (fun m2 => !(is_within_code_block body m2.mstart)) with
    | nil => rw [hfil] at hm; simp at hm
    | cons m2 rest2 =>
      rw [hfil] at hm
      simp only [List.head?_cons, Option.some_inj] at hm
      subst hm
      rfl
  · intro hfil
    rw [extract_cover_image, coverScan_filter, hfil]

/-- Witness for C2: a body with one eligible reference yields that URL and
the body with the span removed. -/
theorem extract_cover_image_c2_witness :
    extract_cover_image (ofStr "x ![a](http://h/p.png) y")
      = (some (ofStr "http://h/p.png"), ofStr "x  y") := by
  have h := (extract_cover_image_c2 (ofStr "x ![a](http://h/p.png) y")).2.1
    ⟨2, 22, ofStr "a", ofStr "http://h/p.png"⟩ (by decide)
  exact h.trans (by decide)

/-- Counterexample to claim C3 as stated: on the body `"x\n"` the last line
`"x"` has no tag markers, yet the returned body is not the unchanged input —
the function returns the CRLF-normalized, right-stripped body `"x"`. -/
theorem extract_tags_c3_counterexample :
    extract_tags_from_body (ofStr "x\n") ≠ ([], ofStr "x\n") := by decide

/-- Claim C3 (amended): `extract_tags_from_body` inspects only the last line
of the normalized body (CRLF→LF, right-stripped).  If that line is inside a
code region, or carries no tag token whose trimmed content is non-empty, it
returns no tags and the normalized body (byte-identical to the input only up
to that normalization); otherwise it returns every `$…$` token trimmed with
empties dropped, left to right, and drops the whole last line including its
separator (rejoined lines right-stripped).  A last line `$foo$ $bar$` outside
any code region yields exactly `["foo", "bar"]`. -/
theorem extract_tags_from_body_c3 (body : List Char) :
    (body = [] → extract_tags_from_body body = ([], body))
    ∧ (body ≠ [] →
        is_within_code_block (normBody body) (tagPosOf (normBody body)) = true →
        extract_tags_from_body body = ([], normBody body))
    ∧ (body ≠ [] →
        is_within_code_block (normBody body) (tagPosOf (normBody body)) = false →
        tagsOfLine (lastLineOf (normBody body)) = [] →
        extract_tags_from_body body = ([], normBody body))
    ∧ (body ≠ [] →
        is_within_code_block (normBody body) (tagPosOf (normBody body)) = false →
        tagsOfLine (lastLineOf (normBody body)) ≠ [] →
        extract_tags_from_body body
          = (tagsOfLine (lastLineOf (normBody body)),
             pyRstrip (joinNl (splitOnNl (normBody body)).dropLast)))
    ∧ extract_tags_from_body (ofStr "a\n$foo$ $bar$") = ([ofStr "foo", ofStr "bar"], ofStr "a") := by
  refine ⟨?_, ?_, ?_, ?_, by decide⟩
  · intro h; rw [extract_tags_from_body, if_pos h]
  · intro hne hcode
    cases hll : (splitOnNl (normBody body)).getLast? with
    | none =>
      exact absurd (List.getLast?_eq_none_iff.mp hll) (splitOnNl_ne_nil _)
    | some ll =>
      have hlast : lastLineOf (normBody body) = pyStrip ll := by
        rw [lastLineOf, hll]; rfl
      rw [tagPosOf, hlast] at hcode
      simp only [extract_tags_from_body, if_neg hne, hll, hcode, if_pos]
  · intro hne hcode htags
    cases hll : (splitOnNl (normBody body)).getLast? with
    | none =>
      exact absurd (List.getLast?_eq_none_iff.mp hll) (splitOnNl_ne_nil _)
    | some ll =>
      have hlast : lastLineOf (normBody body) = pyStrip ll := by
        rw [lastLineOf, hll]; rfl
      rw [tagPosOf, hlast] at hcode
      rw [hlast] at htags
      simp only [extract_tags_from_body, if_neg hne, hll, hcode]
      simp [htags]
  · intro hne hcode htags
    cases hll : (splitOnNl (normBody body)).getLast? with
    | none =>
      exact absurd (List.getLast?_eq_none_iff.mp hll) (splitOnNl_ne_nil _)
    | some ll =>
      have hlast : lastLineOf (normBody body) = pyStrip ll := by
        rw [lastLineOf, hll]; rfl
      rw [tagPosOf, hlast] at hcode
      rw [hlast] at htags
      rw [hlast]
      simp only [extract_tags_from_body, if_neg hne, hll, hcode]
      simp [htags]

/-- Witness for C3 (amended): a last line `$t$` outside code regions yields
the tag and drops the line. -/
theorem extract_tags_from_body_c3_witness :
    extract_tags_from_body (ofStr "hello\n$t$") = ([ofStr "t"], ofStr "hello") := by
  have h := (extract_tags_from_body_c3 (ofStr "hello\n$t$")).2.2.2.1
    (by decide) (by decide) (by decide)
  exact h.trans (by decide)

theorem sfExt_length (u : List Char) : (sfExt u).length ≤ 5 := by
  rw [sfExt]
  split
  · next h =>
    have hmem := of_decide_eq_true h
    have hl : (listLower (sfExt0 u)).length = (sfExt0 u).length := List.length_map _ _
    simp only [validExtensions, List.mem_cons, List.not_mem_nil, or_false] at hmem
    rcases hmem with h1 | h1 | h1 | h1 | h1 <;>
      (rw [h1] at hl; simp [ofStr] at hl; omega)
  · simp

theorem sfStem_length (u : List Char) : (sfStem u).length ≤ 100 - (sfExt u).length := by
  rw [sfStem]
  split
  · next h => simp [List.length_take]
  · next h => omega

theorem sfStem_chars (u : List Char) : ∀ c ∈ sfStem u, safeChar c = true := by
  intro c hc
  have hc2 : c ∈ sfSafeName u := by
    rw [sfStem] at hc
    split at hc
    · exact List.mem_of_mem_take hc
    · exact hc
  rw [sfSafeName] at hc2
  obtain ⟨a, _, ha2⟩ := List.mem_map.mp hc2
  by_cases hs : safeChar a = true
  · rw [if_pos hs] at ha2; rw [← ha2]; exact hs
  · rw [if_neg hs] at ha2; rw [← ha2]; decide

/-- Claim C4: the derived local filename strips the query string, URL-decodes
the basename, replaces every stem character outside `[A-Za-z0-9_-]` with `_`,
keeps the extension only when its lowercase form is an accepted image
extension, and caps stem plus extension at 100 characters; the content-type
re-derivation yields one of the accepted extensions with `.jpg` as default;
and the URL `https://x/y/pic.PNG?a=1` yields `pic.PNG` with the issue-number
prefix and at most 100 characters in total. -/
theorem safe_filename_c4 :
    (∀ url, (safe_filename url).length ≤ 100)
    ∧ (∀ url, safe_filename url = sfStem url ++ sfExt url
        ∧ (∀ c ∈ sfStem url, safeChar c = true)
        ∧ (sfExt url = [] ∨ listLower (sfExt url) ∈ validExtensions))
    ∧ (∀ ct, extFromContentType ct = ofStr ".jpg" ∨ extFromContentType ct = ofStr ".png"
        ∨ extFromContentType ct = ofStr ".gif" ∨ extFromContentType ct = ofStr ".webp")
    ∧ (∀ ct, containsSub (ofStr "image/png") (listLower ct) = false →
        containsSub (ofStr "image/jpeg") (listLower ct) = false →
        containsSub (ofStr "image/gif") (listLower ct) = false →
        containsSub (ofStr "image/webp") (listLower ct) = false →
        extFromContentType ct = ofStr ".jpg")
    ∧ localImageFilename 42 (ofStr "https://x/y/pic.PNG?a=1") = ofStr "42_pic.PNG"
    ∧ (localImageFilename 42 (ofStr "https://x/y/pic.PNG?a=1")).length ≤ 100 := by
  refine ⟨?_, ?_, ?_, ?_, by decide, by decide⟩
  · intro url
    rw [safe_filename, List.length_append]
    have h1 := sfStem_length url
    have h2 := sfExt_length url
    omega
  · intro url
    refine ⟨rfl, sfStem_chars url, ?_⟩
    by_cases h : decide (listLower (sfExt0 url) ∈ validExtensions) = true
    · right
      have he : sfExt url = sfExt0 url := by rw [sfExt, if_pos h]
      rw [he]
      exact of_decide_eq_true h
    · left
      rw [sfExt, if_neg h]
  · intro ct
    rw [extFromContentType]
    split_ifs
    · exact Or.inr (Or.inl rfl)
    · exact Or.inl rfl
    · exact Or.inr (Or.inr (Or.inl rfl))
    · exact Or.inr (Or.inr (Or.inr rfl))
    · exact Or.inl rfl
  · intro ct h1 h2 h3 h4
    rw [extFromContentType]
    simp [h1, h2, h3, h4]

/-- Witness for C4: an unrecognized content-type falls back to `.jpg`. -/
theorem safe_filename_c4_witness :
    extFromContentType (ofStr "text/html") = ofStr ".jpg" :=
  safe_filename_c4.2.2.2.1 (ofStr "text/html") (by decide) (by decide) (by decide) (by decide)

theorem download_image_none (f : Fetch) (u p : List Char) (h : downloadFails f u) :
    download_image f u p = none := by
  rcases h with h | ⟨st, ct, h, hst⟩
  · rw [download_image, h]
  · rw [download_image, h]
    simp [hst]

theorem md_replacer_fail (f : Fetch) (origBody : List Char) (n : Nat) (d : List Char)
    (start : Nat) (alt url matched : List Char) (h : downloadFails f url) :
    md_replacer f origBody n d start alt url matched = matched := by
  rw [md_replacer]
  split
  · rfl
  · rw [download_image_none f url _ h]

theorem html_replacer_fail (f : Fetch) (origBody : List Char) (n : Nat) (d : List Char)
    (start : Nat) (url matched : List Char) (h : downloadFails f url) :
    html_replacer f origBody n d start url matched = matched := by
  rw [html_replacer]
  split
  · rfl
  · rw [download_image_none f url _ h]

theorem mdPassGo_id (f : Fetch) (n : Nat) (d origBody : List Char)
    (hf : ∀ u, downloadFails f u) :
    ∀ (fuel : Nat) (s : List Char) (i : Nat), s.length ≤ fuel →
      mdPassGo f n d origBody fuel s i = s := by
  intro fuel
  induction fuel with
  | zero => intro s i _; rw [mdPassGo]
  | succ fuel ih =>
    intro s i h
    cases s with
    | nil => rw [mdPassGo]
    | cons c rest =>
      have hr : rest.length ≤ fuel := by
        simp only [List.length_cons] at h; omega
      rw [mdPassGo]
      cases hm : matchImgCI (c :: rest) with
      | none =>
        rw [ih rest (i + 1) hr]
      | some au =>
        obtain ⟨alt, url⟩ := au
        show md_replacer f origBody n d i alt url
            ((c :: rest).take (5 + alt.length + url.length))
          ++ mdPassGo f n d origBody fuel (rest.drop (5 + alt.length + url.length - 1))
              (i + (5 + alt.length + url.length)) = c :: rest
        rw [md_replacer_fail f origBody n d i alt url _ (hf url)]
        rw [ih (rest.drop (5 + alt.length + url.length - 1)) _
          (le_trans (by rw [List.length_drop]; omega) hr)]
        have h5 : 5 + alt.length + url.length = (4 + alt.length + url.length) + 1 := by omega
        rw [h5, Nat.add_sub_cancel, List.take_succ_cons, List.cons_append,
          List.take_append_drop]

theorem matchHtmlImg_len_pos (s url : List Char) (len : Nat)
    (h : matchHtmlImg s = some (url, len)) : 1 ≤ len := by
  rw [matchHtmlImg] at h
  cases hp : stripPrefixBy eqCI (ofStr "<img") s with
  | none => rw [hp] at h; exact absurd h (by simp)
  | some r =>
    simp only [hp] at h
    cases hf : findSrc r.2 ((r.2.takeWhile (fun c => c ≠ '>')).length) with
    | none => simp only [hf] at h; exact absurd h (by simp)
    | some ul =>
      obtain ⟨u2, l2⟩ := ul
      simp only [hf, Option.some_inj, Prod.mk.injEq] at h
      omega

theorem htmlPassGo_id (f : Fetch) (n : Nat) (d origBody : List Char)
    (hf : ∀ u, downloadFails f u) :
    ∀ (fuel : Nat) (s : List Char) (i : Nat), s.length ≤ fuel →
      htmlPassGo f n d origBody fuel s i = s := by
  intro fuel
  induction fuel with
  | zero => intro s i _; rw [htmlPassGo]
  | succ fuel ih =>
    intro s i h
    cases s with
    | nil => rw [htmlPassGo]
    | cons c rest =>
      have hr : rest.length ≤ fuel := by
        simp only [List.length_cons] at h; omega
      rw [htmlPassGo]
      cases hm : matchHtmlImg (c :: rest) with
      | none =>
        rw [ih rest (i + 1) hr]
      | some ul =>
        obtain ⟨url, len⟩ := ul
        show html_replacer f origBody n d i url ((c :: rest).take len)
          ++ htmlPassGo f n d origBody fuel (rest.drop (len - 1)) (i + len) = c :: rest
        rw [html_replacer_fail f origBody n d i url _ (hf url)]
        rw [ih (rest.drop (len - 1)) _
          (le_trans (by rw [List.length_drop]; omega) hr)]
        have hlen : 1 ≤ len := matchHtmlImg_len_pos _ _ _ hm
        obtain ⟨k, rfl⟩ : ∃ k, len = k + 1 := ⟨len - 1, by omega⟩
        rw [Nat.add_sub_cancel, List.take_succ_cons, List.cons_append,
          List.take_append_drop]

/-- Claim C5: a failed fetch (exception or non-200 status) yields no
downloaded file, the corresponding reference is left textually unchanged by
both replacers (same URL, same alt text, the whole matched span returned
verbatim), and when every fetch fails the localizer returns the body
untouched; no exception escapes, as the download embedding is total with the
exception branch mapped to `none`. -/
theorem replace_image_urls_c5 :
    (∀ (f : Fetch) (u p : List Char), downloadFails f u → download_image f u p = none)
    ∧ (∀ (f : Fetch) (origBody : List Char) (n : Nat) (d : List Char) (start : Nat)
        (alt url matched : List Char), downloadFails f url →
        md_replacer f origBody n d start alt url matched = matched)
    ∧ (∀ (f : Fetch) (origBody : List Char) (n : Nat) (d : List Char) (start : Nat)
        (url matched : List Char), downloadFails f url →
        html_replacer f origBody n d start url matched = matched)
    ∧ (∀ f : Fetch, (∀ u, downloadFails f u) →
        ∀ (body : List Char) (n : Nat) (d : List Char),
          replace_image_urls f body n d = body) := by
  refine ⟨download_image_none, md_replacer_fail, html_replacer_fail, ?_⟩
  intro f hf body n d
  rw [replace_image_urls, mdPass, mdPassGo_id f n d body hf body.length body 0 (le_refl _),
    htmlPass, htmlPassGo_id f n d body hf body.length body 0 (le_refl _)]

/-- Witness for C5: with an always-raising fetch oracle, a body with an image
reference passes through the localizer unchanged. -/
theorem replace_image_urls_c5_witness :
    replace_image_urls (fun _ => FetchResult.exc)
        (ofStr "see ![a](http://h/i.png) end") 3 (ofStr "out")
      = ofStr "see ![a](http://h/i.png) end" :=
  replace_image_urls_c5.2.2.2 (fun _ => FetchResult.exc) (fun _ => Or.inl rfl)
    (ofStr "see ![a](http://h/i.png) end") 3 (ofStr "out")

theorem pathJoin_getLast (dir file : List Char) (hf : file ≠ []) :
    (pathJoin dir file).getLast? = file.getLast? := by
  obtain ⟨x, hx⟩ : ∃ x, file.getLast? = some x := by
    cases h : file.getLast? with
    | none => exact absurd (List.getLast?_eq_none_iff.mp h) hf
    | some x => exact ⟨x, rfl⟩
  rw [pathJoin]
  split
  · rfl
  · split
    · rw [List.getLast?_append, hx]; rfl
    · show (dir ++ '/' :: file).getLast? = _
      rw [List.getLast?_append, show ('/' :: file) = ['/'] ++ file from rfl,
        List.getLast?_append, hx]
      rfl

theorem indexPath_ne_errPath (output_dir : List Char) (issue : IssueM) :
    indexPathOf output_dir issue ≠ errPathOf output_dir issue := by
  intro h
  have h1 : (indexPathOf output_dir issue).getLast? = some 'd' := by
    rw [indexPathOf, pathJoin_getLast _ _ (by decide)]
    decide
  have h2 : (errPathOf output_dir issue).getLast? = some 'p' := by
    rw [errPathOf, pathJoin_getLast]
    · rw [List.getLast?_append, show (ofStr ".tmp").getLast? = some 'p' from rfl]
      rfl
    · intro hcontra
      have := congrArg List.length hcontra
      simp [ofStr] at this
  rw [h, h2] at h1
  exact absurd h1 (by decide)

theorem indexWrite_notin_convertFail (ft : Faults) (output_dir : List Char) (issue : IssueM)
    (m cnt : List Char) :
    Effect.fileWrite (indexPathOf output_dir issue) cnt ∉ (convertFail ft output_dir issue m).1 := by
  rw [convertFail]
  cases h : ft.errorWrite with
  | some m2 => simp
  | none =>
    simp only [List.mem_cons, List.not_mem_nil, or_false]
    rintro (h1 | h1)
    · exact Effect.noConfusion h1
    · have := (Effect.fileWrite.injEq _ _ _ _).mp h1
      exact indexPath_ne_errPath output_dir issue this.1

/-- Claim C6: the content file `index.md` is written only when all four
transformation stages succeed — no faulty run ever emits a write to the
content path — and a fault-free run on an eligible, not-yet-converted issue
produces exactly the directory creation followed by the single content
write. -/
theorem convert_issue_c6 (f : Fetch) (parse : List Char → List Html) (ft : Faults)
    (issue : IssueM) (output_dir : List Char) :
    (ft.anyStage = true →
      ∀ cnt, Effect.fileWrite (indexPathOf output_dir issue) cnt
        ∉ (convert_issue f parse ft false issue output_dir).1)
    ∧ (ft.anyStage = false → eligible issue = true →
      ∃ cnt, (convert_issue f parse ft false issue output_dir).1
        = [Effect.mkdirp (postDirOf output_dir issue),
           Effect.fileWrite (indexPathOf output_dir issue) cnt]) := by
  obtain ⟨fc, ftg, fs, fi, few⟩ := ft
  constructor
  · intro hstage cnt
    by_cases he : eligible issue = true
    · cases fc with
      | some m =>
        simp only [convert_issue, he, if_true, Bool.false_eq_true, if_false]
        exact indexWrite_notin_convertFail _ output_dir issue m cnt
      | none =>
        cases ftg with
        | some m =>
          simp only [convert_issue, he, if_true, Bool.false_eq_true, if_false]
          exact indexWrite_notin_convertFail _ output_dir issue m cnt
        | none =>
          cases fs with
          | some m =>
            simp only [convert_issue, he, if_true, Bool.false_eq_true, if_false]
            exact indexWrite_notin_convertFail _ output_dir issue m cnt
          | none =>
            cases fi with
            | some m =>
              simp only [convert_issue, he, if_true, Bool.false_eq_true, if_false]
              exact indexWrite_notin_convertFail _ output_dir issue m cnt
            | none => simp [Faults.anyStage] at hstage
    · simp [convert_issue, he]
  · intro hstage he
    cases fc with
    | some m => simp [Faults.anyStage] at hstage
    | none =>
      cases ftg with
      | some m => simp [Faults.anyStage] at hstage
      | none =>
        cases fs with
        | some m => simp [Faults.anyStage] at hstage
        | none =>
          cases fi with
          | some m => simp [Faults.anyStage] at hstage
          | none =>
            refine ⟨frontmatter issue (categoryOf issue)
                (extract_tags_from_body (extract_cover_image (issue.body.getD [])).2).1
                (coverNameOf f output_dir issue)
              ++ replace_image_urls f
                  (sanitize_markdown parse
                    (some (extract_tags_from_body (extract_cover_image (issue.body.getD [])).2).2))
                  issue.number (postDirOf output_dir issue), ?_⟩
            simp [convert_issue, he]

/-- Witness for C6: a cover-stage fault produces no content write, and the
fault-free run writes exactly directory plus content file. -/
theorem convert_issue_c6_witness :
    (∀ cnt, Effect.fileWrite (indexPathOf (ofStr "out") issueDemo) cnt
      ∉ (convert_issue fExc parseText faultCover false issueDemo (ofStr "out")).1)
    ∧ ∃ cnt, (convert_issue fExc parseText Faults.clear false issueDemo (ofStr "out")).1
        = [Effect.mkdirp (postDirOf (ofStr "out") issueDemo),
           Effect.fileWrite (indexPathOf (ofStr "out") issueDemo) cnt] :=
  ⟨(convert_issue_c6 fExc parseText faultCover issueDemo (ofStr "out")).1 (by decide),
   (convert_issue_c6 fExc parseText Faults.clear issueDemo (ofStr "out")).2 (by decide) (by decide)⟩

/-- Counterexample to claim C7 as stated: an exception raised inside a
transformation stage of one document is swallowed by `convert_issue` (it
writes the failure artifact and returns `False`), so the run's error count
stays 0, no comment is posted and no error label is applied — contrary to
the claim that such a document contributes to the error count and surfaces a
structured failure to the caller. -/
theorem convert_issue_c7_counterexample :
    (processIssues fExc parseText (ofStr "out") [(issueDemo, faultCover, false)]).errors = 0
    ∧ (processIssues fExc parseText (ofStr "out") [(issueDemo, faultCover, false)]).comments = []
    ∧ (processIssues fExc parseText (ofStr "out")
        [(issueDemo, faultCover, false)]).labeledErrors = []
    ∧ Effect.fileWrite (errPathOf (ofStr "out") issueDemo) (ofStr "转换错误: boom")
        ∈ (processIssues fExc parseText (ofStr "out") [(issueDemo, faultCover, false)]).effects :=
  ⟨by decide, by decide, by decide, by decide⟩

theorem processIssues_fold (f : Fetch) (parse : List Char → List Html) (output_dir : List Char) :
    ∀ (items : List (IssueM × Faults × Bool)) (st : RunState),
      ((items.foldl (processOne f parse output_dir) st).errors
        = st.errors + items.countP (fun it => (convOutcome f parse output_dir it).isRaised))
      ∧ ((items.foldl (processOne f parse output_dir) st).processed
        = st.processed + items.countP (fun it => (convOutcome f parse output_dir it).isConverted))
      ∧ ((items.foldl (processOne f parse output_dir) st).comments
        = st.comments ++ (items.filter
            (fun it => (convOutcome f parse output_dir it).isRaised)).map
            (fun it => (it.1.number, mkErrorComment (convOutcome f parse output_dir it).msgOf)))
      ∧ ((items.foldl (processOne f parse output_dir) st).labeledErrors
        = st.labeledErrors ++ (items.filter
            (fun it => (convOutcome f parse output_dir it).isRaised)).map
            (fun it => it.1.number)) := by
  intro items
  induction items with
  | nil => intro st; simp
  | cons it rest ih =>
    intro st
    rw [List.foldl_cons]
    obtain ⟨h1, h2, h3, h4⟩ := ih (processOne f parse output_dir st it)
    have hout : convOutcome f parse output_dir it
        = (convert_issue f parse it.2.1 it.2.2 it.1 output_dir).2 := rfl
    cases hc : convert_issue f parse it.2.1 it.2.2 it.1 output_dir with
    | mk effs res =>
      rw [hc] at hout
      cases res with
      | ok b =>
        have hp : processOne f parse output_dir st it
            = { st with processed := st.processed + (if b then 1 else 0),
                        effects := st.effects ++ effs } := by
          rw [processOne, hc]
        refine ⟨?_, ?_, ?_, ?_⟩
        · rw [h1, hp, List.countP_cons]
          simp [hout, ConvResult.isRaised]
        · rw [h2, hp, List.countP_cons]
          simp only [hout, ConvResult.isConverted]
          cases b <;> simp
          omega
        · rw [h3, hp, List.filter_cons]
          simp [hout, ConvResult.isRaised]
        · rw [h4, hp, List.filter_cons]
          simp [hout, ConvResult.isRaised]
      | raised msg =>
        have hp : processOne f parse output_dir st it
            = { st with errors := st.errors + 1,
                        comments := st.comments ++ [(it.1.number, mkErrorComment msg)],
                        labeledErrors := st.labeledErrors ++ [it.1.number],
                        effects := st.effects ++ effs } := by
          rw [processOne, hc]
        refine ⟨?_, ?_, ?_, ?_⟩
        · rw [h1, hp, List.countP_cons]
          simp [hout, ConvResult.isRaised]
          omega
        · rw [h2, hp, List.countP_cons]
          simp [hout, ConvResult.isConverted]
        · rw [h3, hp, List.filter_cons]
          simp [hout, ConvResult.isRaised, ConvResult.msgOf]
        · rw [h4, hp, List.filter_cons]
          simp [hout, ConvResult.isRaised]

/-- Claim C7 (amended): an exception in a transformation stage of one
document never aborts the batch, and it is recorded as the per-document
failure artifact `ERROR_{id}.tmp` carrying the message — but it is swallowed
inside `convert_issue` (returned as a non-converted document), so it does not
increment the error count and no comment or error label is produced.  Only an
exception that escapes `convert_issue` itself (e.g. the failure-artifact
write raising) reaches the orchestrator loop, which then increments the
error count, posts the error comment and applies the error label; the loop
processes every batch item regardless of earlier outcomes, with the error
count, processed count, comments and labels each determined item-wise. -/
theorem convert_issue_c7 (f : Fetch) (parse : List Char → List Html) (output_dir : List Char) :
    (∀ (ft : Faults) (issue : IssueM), ft.anyStage = true → ft.errorWrite = none →
      eligible issue = true →
      ∃ m, (convert_issue f parse ft false issue output_dir).2 = .ok false
        ∧ Effect.fileWrite (errPathOf output_dir issue) (ofStr "转换错误: " ++ m)
            ∈ (convert_issue f parse ft false issue output_dir).1)
    ∧ (∀ (ft : Faults) (issue : IssueM) (m : List Char), ft.errorWrite = some m →
        ft.anyStage = true → eligible issue = true →
        (convert_issue f parse ft false issue output_dir).2 = .raised m)
    ∧ (∀ items : List (IssueM × Faults × Bool),
        ((processIssues f parse output_dir items).errors
          = items.countP (fun it => (convOutcome f parse output_dir it).isRaised))
        ∧ ((processIssues f parse output_dir items).processed
          = items.countP (fun it => (convOutcome f parse output_dir it).isConverted))
        ∧ ((processIssues f parse output_dir items).comments
          = (items.filter (fun it => (convOutcome f parse output_dir it).isRaised)).map
              (fun it => (it.1.number, mkErrorComment (convOutcome f parse output_dir it).msgOf)))
        ∧ ((processIssues f parse output_dir items).labeledErrors
          = (items.filter (fun it => (convOutcome f parse output_dir it).isRaised)).map
              (fun it => it.1.number))) := by
  refine ⟨?_, ?_, ?_⟩
  · intro ft issue hstage hew he
    obtain ⟨fc, ftg, fs, fi, few⟩ := ft
    simp only at hew
    subst hew
    cases fc with
    | some m =>
      refine ⟨m, ?_, ?_⟩ <;> simp [convert_issue, he, convertFail]
    | none =>
      cases ftg with
      | some m =>
        refine ⟨m, ?_, ?_⟩ <;> simp [convert_issue, he, convertFail]
      | none =>
        cases fs with
        | some m =>
          refine ⟨m, ?_, ?_⟩ <;> simp [convert_issue, he, convertFail]
        | none =>
          cases fi with
          | some m =>
            refine ⟨m, ?_, ?_⟩ <;> simp [convert_issue, he, convertFail]
          | none => simp [Faults.anyStage] at hstage
  · intro ft issue m hew hstage he
    obtain ⟨fc, ftg, fs, fi, few⟩ := ft
    simp only at hew
    subst hew
    cases fc with
    | some m2 => simp [convert_issue, he, convertFail]
    | none =>
      cases ftg with
      | some m2 => simp [convert_issue, he, convertFail]
      | none =>
        cases fs with
        | some m2 => simp [convert_issue, he, convertFail]
        | none =>
          cases fi with
          | some m2 => simp [convert_issue, he, convertFail]
          | none => simp [Faults.anyStage] at hstage
  · intro items
    have h := processIssues_fold f parse output_dir items ⟨0, 0, [], [], []⟩
    simpa [processIssues] using h

/-- Witness for C7 (amended): the swallowed cover fault yields the artifact
with `ok false`, and an escaping artifact write is reported as raised. -/
theorem convert_issue_c7_witness :
    (∃ m, (convert_issue fExc parseText faultCover false issueDemo (ofStr "out")).2
        = ConvResult.ok false
      ∧ Effect.fileWrite (errPathOf (ofStr "out") issueDemo) (ofStr "转换错误: " ++ m)
          ∈ (convert_issue fExc parseText faultCover false issueDemo (ofStr "out")).1)
    ∧ (convert_issue fExc parseText ⟨some (ofStr "boom"), none, none, none, some (ofStr "disk")⟩
        false issueDemo (ofStr "out")).2 = ConvResult.raised (ofStr "disk") :=
  ⟨(convert_issue_c7 fExc parseText (ofStr "out")).1 faultCover issueDemo
      (by decide) rfl (by decide),
   (convert_issue_c7 fExc parseText (ofStr "out")).2.1
      ⟨some (ofStr "boom"), none, none, none, some (ofStr "disk")⟩ issueDemo (ofStr "disk")
      rfl (by decide) (by decide)⟩

theorem textForest_append : ∀ a b : List Html, textForest (a ++ b) = textForest a ++ textForest b
  | [], b => by simp [textForest]
  | h :: hs, b => by
    rw [List.cons_append, textForest, textForest, textForest_append hs b, List.append_assoc]

theorem tagsForest_append : ∀ a b : List Html, tagsForest (a ++ b) = tagsForest a ++ tagsForest b
  | [], b => by simp [tagsForest]
  | h :: hs, b => by
    rw [List.cons_append, tagsForest, tagsForest, tagsForest_append hs b, List.append_assoc]

mutual

theorem textForest_sanitizeTree : ∀ h : Html, textForest (sanitizeTree h) = textTree h
  | .text s => by simp [sanitizeTree, textForest, textTree]
  | .elem t cs => by
    rw [sanitizeTree]
    split
    · rw [textForest, textForest, textTree, textTree, List.append_nil]
      exact textForest_sanitizeForest cs
    · rw [textForest_sanitizeForest cs, textTree]

theorem textForest_sanitizeForest : ∀ l : List Html, textForest (sanitizeForest l) = textForest l
  | [] => rfl
  | h :: hs => by
    rw [sanitizeForest, textForest_append, textForest_sanitizeTree h,
      textForest_sanitizeForest hs, textForest]

end

mutual

theorem tags_sanitizeTree :
    ∀ (h : Html) (t : List Char), t ∈ tagsForest (sanitizeTree h) → t ∈ allowed_tags
  | .text s => by intro t ht; simp [sanitizeTree, tagsForest, tagsTree] at ht
  | .elem tg cs => by
    intro t ht
    rw [sanitizeTree] at ht
    split at ht
    · next hal =>
      rw [tagsForest, tagsForest, tagsTree, List.append_nil] at ht
      rcases List.mem_cons.mp ht with h1 | h1
      · subst h1; exact of_decide_eq_true hal
      · exact tags_sanitizeForest cs t h1
    · exact tags_sanitizeForest cs t ht

theorem tags_sanitizeForest :
    ∀ (l : List Html) (t : List Char), t ∈ tagsForest (sanitizeForest l) → t ∈ allowed_tags
  | [] => by intro t ht; simp [sanitizeForest, tagsForest] at ht
  | h :: hs => by
    intro t ht
    rw [sanitizeForest, tagsForest_append] at ht
    rcases List.mem_append.mp ht with h1 | h1
    · exact tags_sanitizeTree h t h1
    · exact tags_sanitizeForest hs t h1

end

mutual

theorem sanitizeTree_of_allowed :
    ∀ h : Html, onlyAllowedTree h = true → sanitizeTree h = [h]
  | .text s => by intro _; rfl
  | .elem t cs => by
    intro ha
    rw [onlyAllowedTree, Bool.and_eq_true] at ha
    rw [sanitizeTree, if_pos ha.1, sanitizeForest_of_allowed cs ha.2]

theorem sanitizeForest_of_allowed :
    ∀ l : List Html, onlyAllowedForest l = true → sanitizeForest l = l
  | [] => by intro _; rfl
  | h :: hs => by
    intro ha
    rw [onlyAllowedForest, Bool.and_eq_true] at ha
    rw [sanitizeForest, sanitizeTree_of_allowed h ha.1, sanitizeForest_of_allowed hs ha.2,
      List.singleton_append]

end

/-- Claim C8: `sanitize_markdown` maps empty or absent input to the empty
string; the sanitizing transformation removes the start/end markers of every
element outside the allow-list while splicing its children into the parent in
place — the inner text is preserved verbatim and every surviving element tag
is allow-listed — and a fragment built only from allow-listed elements and
text passes through unchanged. -/
theorem sanitize_markdown_c8 :
    (∀ parse : List Char → List Html,
      sanitize_markdown parse none = [] ∧ sanitize_markdown parse (some []) = [])
    ∧ (∀ h : Html, textForest (sanitizeTree h) = textTree h)
    ∧ (∀ (h : Html) (t : List Char), t ∈ tagsForest (sanitizeTree h) → t ∈ allowed_tags)
    ∧ (∀ h : Html, onlyAllowedTree h = true → sanitizeTree h = [h]) :=
  ⟨fun _ => ⟨rfl, rfl⟩, textForest_sanitizeTree, tags_sanitizeTree, sanitizeTree_of_allowed⟩

/-- Witness for C8: an allow-listed paragraph passes through unchanged, and a
`script` wrapper around permitted text is unwrapped with the text kept. -/
theorem sanitize_markdown_c8_witness :
    (onlyAllowedTree (Html.elem (ofStr "p") [Html.text (ofStr "hi")]) = true
      ∧ sanitizeTree (Html.elem (ofStr "p") [Html.text (ofStr "hi")])
          = [Html.elem (ofStr "p") [Html.text (ofStr "hi")]])
    ∧ sanitizeTree (Html.elem (ofStr "script") [Html.text (ofStr "hi")])
        = [Html.text (ofStr "hi")] :=
  ⟨⟨by rfl, sanitize_markdown_c8.2.2.2 (Html.elem (ofStr "p") [Html.text (ofStr "hi")]) (by rfl)⟩,
   by rfl⟩

/-- Claim C9, evaluated at the failing input: the HTML image regex's match
span ends at the `src` URL (and optional closing quote), so rewriting an
eligible raw `<img>` reference with a successful fetch leaves the remainder
of the tag — here ` alt="x">` — dangling in the body after the inserted
markdown image (and the alt attribute, lying outside the matched span, is
lost to the `Image` default). -/
theorem replace_image_urls_c9 :
    replace_image_urls (fun _ => FetchResult.resp 200 (ofStr "image/png"))
        (ofStr "<img src=\"http://h/a.png\" alt=\"x\">") 7 (ofStr "out")
      = ofStr "![Image](7_a.png) alt=\"x\">" := by decide

/-- Claim C10 (implicit): when a cover reference was extracted (and thereby
removed from the body) but its download fails, the orchestrator neither
restores the removed markup — the persisted body is the pipeline applied to
the already-shortened body — nor emits a cover front-matter field: the front
matter is built with no cover name, and the cover-bearing front matter is
never equal to the cover-less one. -/
theorem convert_issue_c10 (f : Fetch) (parse : List Char → List Html) (issue : IssueM)
    (output_dir u body1 : List Char)
    (hel : eligible issue = true)
    (hc : extract_cover_image (issue.body.getD []) = (some u, body1))
    (hf : downloadFails f u) :
    convert_issue f parse Faults.clear false issue output_dir
      = ([Effect.mkdirp (postDirOf output_dir issue),
          Effect.fileWrite (indexPathOf output_dir issue)
            (frontmatter issue (categoryOf issue) (extract_tags_from_body body1).1 none
             ++ replace_image_urls f
                  (sanitize_markdown parse (some (extract_tags_from_body body1).2))
                  issue.number (postDirOf output_dir issue))],
         ConvResult.ok true)
    ∧ (∀ cn, frontmatterLines issue (categoryOf issue) (extract_tags_from_body body1).1 (some cn)
        ≠ frontmatterLines issue (categoryOf issue) (extract_tags_from_body body1).1 none) := by
  constructor
  · have hcover : coverNameOf f output_dir issue = none := by
      rw [coverNameOf, hc]
      simp [download_image_none f u _ hf]
    simp [convert_issue, hel, Faults.clear, hc, hcover]
  · intro cn hcontra
    have := congrArg List.length hcontra
    simp [frontmatterLines] at this

/-- Witness for C10: the demo issue's cover reference is extracted, its fetch
raises, and the persisted content unit carries no cover field while its body
is the pipeline output of the shortened body. -/
theorem convert_issue_c10_witness :
    convert_issue fExc parseText Faults.clear false issueDemo (ofStr "out")
      = ([Effect.mkdirp (postDirOf (ofStr "out") issueDemo),
          Effect.fileWrite (indexPathOf (ofStr "out") issueDemo)
            (frontmatter issueDemo (categoryOf issueDemo)
              (extract_tags_from_body (ofStr "\nhello")).1 none
             ++ replace_image_urls fExc
                  (sanitize_markdown parseText
                    (some (extract_tags_from_body (ofStr "\nhello")).2))
                  issueDemo.number (postDirOf (ofStr "out") issueDemo))],
         ConvResult.ok true) :=
  (convert_issue_c10 fExc parseText issueDemo (ofStr "out") (ofStr "http://h/a.png")
    (ofStr "\nhello") (by decide) (by decide) (Or.inl rfl)).1

end IssueToHugo
